import Mathlib

/-!
Verification development for the scene-segmentation and keyframe-embedding
pipeline of the semantic-video-retriever repository.

The development shallowly embeds the two notebooks:
  * the splitter notebook (`convert_to_mp4`, `split_video`, driver loop), and
  * `3_generate_clip_embeddings.ipynb` (`extract_middle_frame`,
    `generate_clip_embedding`, the embedding loop).

Machine-level conventions of the embedding:
  * Python floats that hold OpenCV metadata (`fps`) are modelled as rationals.
  * Python `int()` is modelled as truncation toward zero (`pyInt`).
  * the decodable frame stream of a video is a `List ℕ` (each `ℕ` an opaque
    frame); `cap.read()` failing is modelled by the stream being exhausted.
  * file names and paths are `List Char`; the filesystem is a partial map
    from paths to file data.
  * the unbounded `while` loops of `split_video` are given explicit fuel;
    the returned `Bool` records whether the loop actually finished (`true`)
    or only the fuel ran out (`false`).  A result `(clips, false)` for every
    fuel value means the source loop never terminates, and `clips` lists the
    clip files the loop has emitted (writer opened, written, released) before
    that point.
-/

namespace VideoPipeline

/-- Python `int()` applied to a rational value: truncation toward zero. -/
def pyInt (q : ℚ) : ℤ := if 0 ≤ q then ⌊q⌋ else ⌈q⌉

/-- Embedding of line `clip_frames = int(fps * clip_duration)` of
`split_video`.  The result is the per-clip frame budget; it is nonnegative
whenever `fps` is (OpenCV never reports a negative rate), so we keep it as a
natural number via `Int.toNat`. -/
def clipFrameBudget (fps : ℚ) (clip_duration : ℕ) : ℕ :=
  (pyInt (fps * (clip_duration : ℚ))).toNat

/-- Configuration constant `CLIP_DURATION = 5` (seconds) of the splitter
notebook. -/
def CLIP_DURATION : ℕ := 5

/-- Embedding of the inner `while frames_written < clip_frames and
frame_idx < total_frames` loop of `split_video`: consume up to `budget`
frames from `stream` (a `cap.read()` that fails, i.e. an exhausted stream,
breaks the loop).  Returns the frames written to the current clip, the
remaining stream, and the new `frame_idx`. -/
def consume : ℕ → List ℕ → ℕ → ℕ → List ℕ × List ℕ × ℕ
  | 0, stream, frame_idx, _ => ([], stream, frame_idx)
  | budget + 1, stream, frame_idx, total_frames =>
    if frame_idx < total_frames then
      match stream with
      | [] => ([], [], frame_idx)
      | f :: rest =>
        let r := consume budget rest (frame_idx + 1) total_frames
        (f :: r.1, r.2.1, r.2.2)
    else ([], stream, frame_idx)

/-- Embedding of the outer `while frame_idx < total_frames` loop of
`split_video`, with explicit fuel.  Each iteration opens a writer for clip
`clip_idx`, runs the inner loop, releases the writer (emitting the clip with
however many frames were written, possibly zero) and increments `clip_idx`.
The boolean is `true` iff the loop exited normally within the given fuel. -/
def splitLoop (clip_frames total_frames : ℕ) :
    ℕ → List ℕ → ℕ → ℕ → List (ℕ × List ℕ) × Bool
  | 0, _, _, _ => ([], false)
  | fuel + 1, stream, frame_idx, clip_idx =>
    if frame_idx < total_frames then
      let r := consume clip_frames stream frame_idx total_frames
      let rest := splitLoop clip_frames total_frames fuel r.2.1 r.2.2 (clip_idx + 1)
      ((clip_idx, r.1) :: rest.1, rest.2)
    else ([], true)

/-- Characterisation of the inner loop: it takes
`min budget (min stream.length (total_frames - frame_idx))` frames off the
head of the stream and advances `frame_idx` by that amount. -/
lemma consume_spec (budget : ℕ) (stream : List ℕ) (fi tf : ℕ) :
    consume budget stream fi tf =
      (stream.take (min budget (min stream.length (tf - fi))),
       stream.drop (min budget (min stream.length (tf - fi))),
       fi + min budget (min stream.length (tf - fi))) := by
  induction budget generalizing stream fi with
  | zero => simp [consume]
  | succ b ih =>
    by_cases h : fi < tf
    · cases stream with
      | nil => simp [consume, h]
      | cons f rest =>
        have hk : min (b + 1) (min (rest.length + 1) (tf - fi)) =
            min b (min rest.length (tf - (fi + 1))) + 1 := by omega
        simp only [consume, if_pos h, ih rest (fi + 1), List.length_cons, hk,
          List.take_succ_cons, List.drop_succ_cons]
        refine Prod.ext rfl (Prod.ext rfl ?_)
        simp
        omega
    · have h0 : tf - fi = 0 := by omega
      simp [consume, h, h0]

/-- With an exhausted stream but `frame_idx` still below the reported total,
the outer loop of `split_video` never finishes: the inner loop writes no
frame, `frame_idx` never advances, and the guard stays true forever. -/
lemma splitLoop_nil_stream (cf tf : ℕ) : ∀ (fuel fi ci : ℕ), fi < tf →
    (splitLoop cf tf fuel ([] : List ℕ) fi ci).2 = false := by
  intro fuel
  induction fuel with
  | zero => intro fi ci _; simp [splitLoop]
  | succ fuel ih =>
    intro fi ci h
    simp only [splitLoop, if_pos h, consume_spec]
    simpa using ih fi (ci + 1) h

/-- With a clip-frame budget of zero (a zero reported frame rate) and a
nonzero reported total, the outer loop of `split_video` never finishes. -/
lemma splitLoop_zero_budget (tf : ℕ) : ∀ (fuel : ℕ) (s : List ℕ) (fi ci : ℕ),
    fi < tf → (splitLoop 0 tf fuel s fi ci).2 = false := by
  intro fuel
  induction fuel with
  | zero => intro s fi ci _; simp [splitLoop]
  | succ fuel ih =>
    intro s fi ci h
    simp only [splitLoop, if_pos h, consume_spec]
    simpa using ih s fi (ci + 1) h

/-- Soundness of a finished run of the outer loop of `split_video`: starting
from `frame_idx = fi ≤ total_frames`, the emitted clips consume exactly the
first `total_frames - fi` stream frames in order, their indices are the
consecutive run starting at `clip_idx`, and every clip except the last holds
exactly `clip_frames` frames. -/
lemma splitLoop_sound (cf tf : ℕ) :
    ∀ (fuel : ℕ) (stream : List ℕ) (fi ci : ℕ),
      fi ≤ tf →
      (splitLoop cf tf fuel stream fi ci).2 = true →
      ((splitLoop cf tf fuel stream fi ci).1.map fun c => c.2.length).sum
          = tf - fi ∧
      (splitLoop cf tf fuel stream fi ci).1.map Prod.fst
          = List.range' ci (splitLoop cf tf fuel stream fi ci).1.length ∧
      ((splitLoop cf tf fuel stream fi ci).1.map fun c => c.2).flatten
          = stream.take (tf - fi) ∧
      ∀ i, i + 1 < (splitLoop cf tf fuel stream fi ci).1.length →
        ((splitLoop cf tf fuel stream fi ci).1.map fun c => c.2.length).get? i
          = some cf := by
  intro fuel
  induction fuel with
  | zero =>
    intro stream fi ci _ hdone
    simp [splitLoop] at hdone
  | succ fuel ih =>
    intro stream fi ci hle hdone
    by_cases h : fi < tf
    · have hcs := consume_spec cf stream fi tf
      set k := min cf (min stream.length (tf - fi)) with hk
      have hkle : k ≤ tf - fi := by omega
      have hklen : k ≤ stream.length := by omega
      simp only [splitLoop, if_pos h, hcs] at hdone ⊢
      have hrec := ih (stream.drop k) (fi + k) (ci + 1) (by omega) hdone
      obtain ⟨h1, h2, h3, h4⟩ := hrec
      refine ⟨?_, ?_, ?_, ?_⟩
      · simp only [List.map_cons, List.sum_cons, h1, List.length_take]
        omega
      · simp only [List.map_cons, h2, List.length_cons, List.range'_succ]
      · simp only [List.map_cons, List.flatten_cons, h3, List.length_drop]
        rw [show tf - fi = k + (tf - (fi + k)) by omega, List.take_add]
      · intro i hi
        cases i with
        | zero =>
          have hpos : 0 < (splitLoop cf tf fuel (stream.drop k) (fi + k)
              (ci + 1)).1.length := by
            simpa using hi
          have hlt : fi + k < tf := by
            by_contra hge
            cases fuel with
            | zero => simp [splitLoop] at hdone
            | succ f2 =>
              have hnot : ¬ (fi + k < tf) := hge
              simp [splitLoop, hnot] at hpos
          have hkcf : k = cf := by
            by_contra hne
            have hklen2 : k = stream.length := by omega
            have hnil : stream.drop k = [] := by
              rw [hklen2]; exact List.drop_length stream
            rw [hnil] at hdone
            have := splitLoop_nil_stream cf tf fuel (fi + k) (ci + 1) hlt
            rw [this] at hdone
            exact Bool.false_ne_true hdone
          simp [List.length_take, hkcf]
          omega
        | succ j =>
          have hj : j + 1 < (splitLoop cf tf fuel (stream.drop k) (fi + k)
              (ci + 1)).1.length := by
            simpa using hi
          simpa using h4 j hj
    · have h0 : tf - fi = 0 := by omega
      simp [splitLoop, h, h0]

/-- Evaluation of the frame budget at a frame rate of 3/10 fps. -/
lemma clipFrameBudget_three_tenths : clipFrameBudget (3/10) CLIP_DURATION = 1 := by
  unfold clipFrameBudget pyInt CLIP_DURATION
  rw [if_pos (by norm_num)]
  norm_num

/-- Evaluation of the frame budget at a frame rate of 0 fps. -/
lemma clipFrameBudget_zero_fps : clipFrameBudget 0 CLIP_DURATION = 0 := by
  unfold clipFrameBudget pyInt CLIP_DURATION
  rw [if_pos (by norm_num)]
  norm_num

/-- Evaluation of the frame budget at a frame rate of 1/5 fps. -/
lemma clipFrameBudget_one_fifth : clipFrameBudget (1/5) CLIP_DURATION = 1 := by
  unfold clipFrameBudget pyInt CLIP_DURATION
  rw [if_pos (by norm_num)]
  norm_num

/-- Evaluation of the frame budget at a frame rate of 1 fps. -/
lemma clipFrameBudget_one : clipFrameBudget 1 CLIP_DURATION = 5 := by
  unfold clipFrameBudget pyInt CLIP_DURATION
  rw [if_pos (by norm_num)]
  norm_num
  rfl

/-- C1 counterexample: the claim says the per-clip frame budget equals
`round(frame_rate * clip_duration)` and that every non-final clip holds that
many frames.  At a reported frame rate of 3/10 fps with the notebook's
5-second clips, the code's budget `int(fps * clip_duration)` truncates
1.5 to 1, while `round` gives 2; a finished run on a 3-frame video emits
clips of 1 frame each, so the non-final clips hold 1 frame, not
`round(frame_rate * clip_duration) = 2`. -/
theorem c1_counterexample :
    clipFrameBudget (3/10) CLIP_DURATION = 1 ∧
    round ((3/10 : ℚ) * (CLIP_DURATION : ℚ)) = 2 ∧
    (splitLoop (clipFrameBudget (3/10) CLIP_DURATION) 3 5 [9, 8, 7] 0 0).1.map
        (fun c => c.2.length) = [1, 1, 1] ∧
    (splitLoop (clipFrameBudget (3/10) CLIP_DURATION) 3 5 [9, 8, 7] 0 0).2
        = true := by
  refine ⟨clipFrameBudget_three_tenths, ?_, ?_, ?_⟩
  · unfold CLIP_DURATION; norm_num [round_eq]
  · rw [clipFrameBudget_three_tenths]; decide
  · rw [clipFrameBudget_three_tenths]; decide

/-- C1 amended: the per-clip frame budget is `int(fps * clip_duration)`
(truncation toward zero, i.e. the floor for a nonnegative rate), and in every
run of `split_video` that finishes, every non-final clip holds exactly that
many frames. -/
theorem c1_nonfinal_clip_budget (fps : ℚ) (d tf fuel : ℕ) (stream : List ℕ)
    (clips : List (ℕ × List ℕ))
    (hdone : splitLoop (clipFrameBudget fps d) tf fuel stream 0 0
      = (clips, true))
    (i : ℕ) (hi : i + 1 < clips.length) :
    (clips.map fun c => c.2.length).get? i = some (clipFrameBudget fps d) := by
  have h := splitLoop_sound (clipFrameBudget fps d) tf fuel stream 0 0
    (Nat.zero_le tf) (by rw [hdone])
  rw [hdone] at h
  exact h.2.2.2 i hi

/-- Witness for `c1_nonfinal_clip_budget` at 1 fps, a 7-frame stream and a
budget of 5 frames per clip. -/
theorem c1_nonfinal_clip_budget_witness :
    splitLoop (clipFrameBudget 1 CLIP_DURATION) 7 3 [0, 1, 2, 3, 4, 5, 6] 0 0
        = ([(0, [0, 1, 2, 3, 4]), (1, [5, 6])], true) ∧
    (([(0, [0, 1, 2, 3, 4]), (1, [5, 6])] : List (ℕ × List ℕ)).map
        (fun c => c.2.length)).get? 0
      = some (clipFrameBudget 1 CLIP_DURATION) := by
  constructor
  · rw [clipFrameBudget_one]; decide
  · exact c1_nonfinal_clip_budget 1 CLIP_DURATION 7 3 [0, 1, 2, 3, 4, 5, 6]
      [(0, [0, 1, 2, 3, 4]), (1, [5, 6])]
      (by rw [clipFrameBudget_one]; decide) 0 (by decide)

/-- C2: the claim says `split_video` terminates for every input, aborting
with a diagnostic when the reported frame rate is zero.  The code has no such
guard: with `fps = 0` the budget `int(fps * clip_duration)` is 0, the inner
loop writes no frame, `frame_idx` stays 0 below the reported total of 1, and
the outer loop never finishes for any amount of fuel. -/
theorem c2_zero_framerate_never_completes (fuel : ℕ) (stream : List ℕ) :
    (splitLoop (clipFrameBudget 0 CLIP_DURATION) 1 fuel stream 0 0).2
      = false := by
  rw [clipFrameBudget_zero_fps]
  exact splitLoop_zero_budget 1 fuel stream 0 0 (by omega)

/-- C3: the claim says no clip file is ever emitted with zero frames
written, also when the stream ends earlier than the reported frame count.
With a reported total of 2 frames, a stream holding only 1 decodable frame
and a budget of 1 frame per clip (1/5 fps), the code emits clip 001 and clip
002 with zero frames each within 3 iterations, and the loop never finishes
for any amount of fuel. -/
theorem c3_short_stream_emits_empty_clip :
    clipFrameBudget (1/5) CLIP_DURATION = 1 ∧
    (splitLoop (clipFrameBudget (1/5) CLIP_DURATION) 2 3 [7] 0 0).1
        = [(0, [7]), (1, []), (2, [])] ∧
    ∀ fuel, (splitLoop (clipFrameBudget (1/5) CLIP_DURATION) 2 fuel [7] 0 0).2
        = false := by
  refine ⟨clipFrameBudget_one_fifth, ?_, ?_⟩
  · rw [clipFrameBudget_one_fifth]; decide
  · intro fuel
    rw [clipFrameBudget_one_fifth]
    cases fuel with
    | zero => simp [splitLoop]
    | succ fuel =>
      simp only [splitLoop, if_pos (by omega : (0:ℕ) < 2), consume_spec]
      simpa using splitLoop_nil_stream 1 2 fuel 1 1 (by omega)

/-- C4: in every run of `split_video` that finishes, the emitted clips
partition the source frames: the clip frame counts sum to the reported total
frame count, the concatenation of the clips is exactly the first
`total_frames` frames of the stream in order (contiguous, non-overlapping),
and the clip indices are the dense 0-based run `0, 1, ..., n-1`. -/
theorem c4_partition (cf tf fuel : ℕ) (stream : List ℕ)
    (clips : List (ℕ × List ℕ))
    (hdone : splitLoop cf tf fuel stream 0 0 = (clips, true)) :
    (clips.map fun c => c.2.length).sum = tf ∧
    (clips.map fun c => c.2).flatten = stream.take tf ∧
    clips.map Prod.fst = List.range clips.length := by
  have h := splitLoop_sound cf tf fuel stream 0 0 (Nat.zero_le tf)
    (by rw [hdone])
  rw [hdone] at h
  obtain ⟨h1, h2, h3, _⟩ := h
  refine ⟨by simpa using h1, by simpa using h3, ?_⟩
  rw [List.range_eq_range']
  simpa using h2

/-- Witness for `c4_partition`: a 3-frame stream with a budget of 2 frames
per clip yields clips `[4, 5]` and `[6]` with indices `[0, 1]`. -/
theorem c4_partition_witness :
    splitLoop 2 3 3 [4, 5, 6] 0 0 = ([(0, [4, 5]), (1, [6])], true) ∧
    (([(0, [4, 5]), (1, [6])] : List (ℕ × List ℕ)).map
        fun c => c.2.length).sum = 3 ∧
    (([(0, [4, 5]), (1, [6])] : List (ℕ × List ℕ)).map
        fun c => c.2).flatten = [4, 5, 6].take 3 ∧
    ([(0, [4, 5]), (1, [6])] : List (ℕ × List ℕ)).map Prod.fst
        = List.range 2 := by
  refine ⟨by decide, ?_⟩
  have h := c4_partition 2 3 3 [4, 5, 6] [(0, [4, 5]), (1, [6])] (by decide)
  simpa using h

/-- Embedding of `os.path.basename` for POSIX-style paths: the part of the
path after its last '/'. -/
def pyBasename (s : List Char) : List Char :=
  (s.reverse.takeWhile fun c => c ≠ '/').reverse

/-- Helper for `os.path.splitext`: strip `body` from its last dot on, when
`body` holds a dot at all. -/
def stripLastExt (body : List Char) : List Char :=
  if body.contains '.' then
    ((body.reverse.dropWhile fun c => c ≠ '.').drop 1).reverse
  else body

/-- Embedding of `os.path.splitext(...)[0]`: the root of a file name, with
the Python rule that dots leading the name never start an extension. -/
def splitextRoot (s : List Char) : List Char :=
  let k := (s.takeWhile fun c => c = '.').length
  s.take k ++ stripLastExt (s.drop k)

/-- Embedding of `os.path.join` for POSIX-style paths, two components. -/
def pyJoin (d p : List Char) : List Char :=
  if p.head? = some '/' then p
  else if d = [] then p
  else if d.getLast? = some '/' then d ++ p
  else d ++ '/' :: p

/-- Data of one video file as the pipeline reads it through OpenCV: whether
`cv2.VideoCapture` can open it, the reported frame rate (`CAP_PROP_FPS`),
the reported frame count (`CAP_PROP_FRAME_COUNT`) and the stream of
decodable frames. -/
structure VideoData where
  openable : Bool
  fps : ℚ
  reported : ℕ
  frames : List ℕ
deriving DecidableEq

/-- Filesystem model: a partial map from paths to video file data. -/
abbrev FS := List Char → Option VideoData

/-- Writing one file: the path now maps to the new data. -/
def FS.update (fs : FS) (p : List Char) (v : VideoData) : FS :=
  fun q => if q = p then some v else fs q

/-- Writing a list of files in order (later writes win). -/
def writeAll (fs : FS) : List (List Char × VideoData) → FS
  | [] => fs
  | e :: t => writeAll (fs.update e.1 e.2) t

/-- Configuration constant `INPUT_DIR` of the splitter notebook. -/
def INPUT_DIR : List Char := "video_data/raw_videos".toList

/-- Configuration constant `TEMP_DIR` of the splitter notebook. -/
def TEMP_DIR : List Char := "video_data/converted_videos".toList

/-- Configuration constant `OUTPUT_DIR` of the splitter notebook. -/
def OUTPUT_DIR : List Char := "video_data/scenes".toList

/-- Output path chosen by `convert_to_mp4`:
`os.path.join(out_dir, os.path.splitext(os.path.basename(file_path))[0] + '.mp4')`.
The source extension is stripped, not swapped into the name. -/
def convOutPath (file_path out_dir : List Char) : List Char :=
  pyJoin out_dir (splitextRoot (pyBasename file_path) ++ (".mp4".toList))

/-- Embedding of `convert_to_mp4`.  The external FFmpeg process is the
oracle `ffmpeg`: for an input path it yields the converted file data, or
`none` when the subprocess exits with non-zero status
(`subprocess.CalledProcessError`).  If the output path already exists the
call returns it unchanged (idempotent skip); on failure it returns `none`
and writes nothing; on success it writes exactly the output file. -/
def convert_to_mp4 (ffmpeg : List Char → Option VideoData) (fs : FS)
    (file_path out_dir : List Char) : FS × Option (List Char) :=
  let output_path := convOutPath file_path out_dir
  if (fs output_path).isSome then (fs, some output_path)
  else
    match ffmpeg file_path with
    | some v => (fs.update output_path v, some output_path)
    | none => (fs, none)

/-- Decimal digits of a natural number, via the core runtime. -/
def natDigits (n : ℕ) : List Char := Nat.toDigits 10 n

/-- Python `f-string` formatting of a clip index with `03d`: the decimal
digits left-padded with '0' to at least three characters. -/
def pad3 (n : ℕ) : List Char :=
  List.replicate (3 - (natDigits n).length) '0' ++ natDigits n

/-- Clip file name chosen by `split_video` for clip `idx` of a video. -/
def clipName (video_name : List Char) (idx : ℕ) : List Char :=
  video_name ++ ("_clip_".toList) ++ pad3 idx ++ (".mp4".toList)

/-- Clip files written by one run of `split_video` on the video data `cap`
found at `file_path`: one file per emitted clip, named by `clipName` in
`out_dir`, holding the frames written at the source frame rate. -/
def clipEntries (file_path out_dir : List Char) (clip_duration fuel : ℕ)
    (cap : VideoData) : List (List Char × VideoData) :=
  ((splitLoop (clipFrameBudget cap.fps clip_duration) cap.reported fuel
      cap.frames 0 0).1).map
    fun c => (pyJoin out_dir (clipName (splitextRoot (pyBasename file_path)) c.1),
              VideoData.mk true cap.fps c.2.length c.2)

/-- Embedding of `split_video` at the filesystem level: open the capture at
`file_path` (if that fails, print a diagnostic and return with no writes),
read the metadata, run the splitting loop and write the emitted clip
files. -/
def split_video (fs : FS) (file_path out_dir : List Char)
    (clip_duration fuel : ℕ) : FS :=
  match fs file_path with
  | none => fs
  | some cap =>
    if cap.openable then
      writeAll fs (clipEntries file_path out_dir clip_duration fuel cap)
    else fs

/-- Embedding of one iteration of the driver loop of the splitter notebook:
`mp4_path = convert_to_mp4(os.path.join(INPUT_DIR, video_file), TEMP_DIR)`,
then `split_video(mp4_path, OUTPUT_DIR, CLIP_DURATION)` only when
`mp4_path` is not `None`. -/
def processVideo (ffmpeg : List Char → Option VideoData) (fuel : ℕ)
    (fs : FS) (video_file : List Char) : FS :=
  let r := convert_to_mp4 ffmpeg fs (pyJoin INPUT_DIR video_file) TEMP_DIR
  match r.2 with
  | some mp4_path => split_video r.1 mp4_path OUTPUT_DIR CLIP_DURATION fuel
  | none => r.1

/-- Embedding of the driver loop over the listed video files. -/
def driverRun (ffmpeg : List Char → Option VideoData) (fuel : ℕ)
    (videos : List (List Char)) (fs : FS) : FS :=
  videos.foldl (processVideo ffmpeg fuel) fs

/-- Last write to path `q` among the listed entries, if any. -/
def lastWrite : List (List Char × VideoData) → List Char → Option VideoData
  | [], _ => none
  | e :: t, q =>
    match lastWrite t q with
    | some v => some v
    | none => if q = e.1 then some e.2 else none

/-- Pointwise description of `writeAll`: path `q` holds the last value
written to it, or its previous content. -/
lemma writeAll_apply (fs : FS) (l : List (List Char × VideoData))
    (q : List Char) :
    writeAll fs l q =
      match lastWrite l q with
      | some v => some v
      | none => fs q := by
  induction l generalizing fs with
  | nil => simp [writeAll, lastWrite]
  | cons e t ih =>
    simp only [writeAll, lastWrite]
    rw [ih]
    cases lastWrite t q with
    | some v => rfl
    | none => by_cases hq : q = e.1 <;> simp [FS.update, hq]

/-- Paths never written stay untouched. -/
lemma lastWrite_none {l : List (List Char × VideoData)} {q : List Char}
    (h : ∀ e ∈ l, e.1 ≠ q) : lastWrite l q = none := by
  induction l with
  | nil => rfl
  | cons e t ih =>
    have he := h e (List.mem_cons_self e t)
    rw [lastWrite, ih fun x hx => h x (List.mem_cons_of_mem e hx)]
    simp [Ne.symm he]

/-- Rewriting the same list of files twice leaves the filesystem as after
the first pass. -/
lemma writeAll_idem (fs : FS) (l : List (List Char × VideoData)) :
    writeAll (writeAll fs l) l = writeAll fs l := by
  funext q
  rw [writeAll_apply]
  cases h : lastWrite l q with
  | some v => rw [writeAll_apply, h]
  | none => rfl

/-- A path none of the entries writes keeps its previous content. -/
lemma writeAll_ne (fs : FS) (l : List (List Char × VideoData))
    (q : List Char) (h : ∀ e ∈ l, e.1 ≠ q) : writeAll fs l q = fs q := by
  rw [writeAll_apply, lastWrite_none h]

/-- Writing files never erases an existing file. -/
lemma writeAll_isSome (fs : FS) (l : List (List Char × VideoData))
    (q : List Char) (h : (fs q).isSome = true) :
    ((writeAll fs l) q).isSome = true := by
  rw [writeAll_apply]
  cases hl : lastWrite l q with
  | some v => rfl
  | none => exact h

/-- Characters of a basename are never the path separator. -/
lemma pyBasename_no_slash (s : List Char) :
    ∀ c ∈ pyBasename s, c ≠ '/' := by
  intro c hc
  unfold pyBasename at hc
  rw [List.mem_reverse] at hc
  have := List.mem_takeWhile_imp hc
  simpa using this

/-- Characters of `stripLastExt body` come from `body`. -/
lemma mem_stripLastExt {a : Char} {body : List Char}
    (h : a ∈ stripLastExt body) : a ∈ body := by
  unfold stripLastExt at h
  by_cases hc : body.contains '.'
  · rw [if_pos hc, List.mem_reverse] at h
    have h2 := List.mem_of_mem_drop h
    have h3 := (List.dropWhile_sublist _).subset h2
    exact List.mem_reverse.mp h3
  · rwa [if_neg hc] at h

/-- Characters of a splitext root come from the original name. -/
lemma mem_splitextRoot {a : Char} {s : List Char}
    (h : a ∈ splitextRoot s) : a ∈ s := by
  unfold splitextRoot at h
  rcases List.mem_append.mp h with h1 | h2
  · exact List.mem_of_mem_take h1
  · exact List.mem_of_mem_drop (mem_stripLastExt h2)

/-- Expanded form of `pyJoin` into the temp (converted-videos) directory. -/
lemma pyJoin_temp (p : List Char) (hp : p.head? ≠ some '/') :
    pyJoin TEMP_DIR p = TEMP_DIR ++ '/' :: p := by
  unfold pyJoin
  rw [if_neg hp, if_neg (by decide), if_neg (by decide)]

/-- Expanded form of `pyJoin` into the scenes directory. -/
lemma pyJoin_out (p : List Char) (hp : p.head? ≠ some '/') :
    pyJoin OUTPUT_DIR p = OUTPUT_DIR ++ '/' :: p := by
  unfold pyJoin
  rw [if_neg hp, if_neg (by decide), if_neg (by decide)]

/-- Paths in the temp (converted-videos) directory never coincide with paths
in the scenes directory. -/
lemma temp_path_ne_out_path (b nm : List Char) (hb : b.head? ≠ some '/') :
    pyJoin TEMP_DIR b ≠ pyJoin OUTPUT_DIR nm := by
  intro h
  rw [pyJoin_temp b hb] at h
  by_cases hn : nm.head? = some '/'
  · unfold pyJoin at h
    rw [if_pos hn] at h
    have hv : (TEMP_DIR ++ '/' :: b).head? = some 'v' := rfl
    rw [h, hn] at hv
    exact absurd hv (by decide)
  · rw [pyJoin_out nm hn] at h
    have h11 := congrArg (fun l => l[11]?) h
    simp only [List.getElem?_append_left (by decide : 11 < TEMP_DIR.length),
      List.getElem?_append_left (by decide : 11 < OUTPUT_DIR.length)] at h11
    exact absurd h11 (by decide)

/-- The file-name component `convert_to_mp4` builds never starts with a
path separator. -/
lemma convName_head (fp : List Char) :
    ((splitextRoot (pyBasename fp)) ++ (".mp4".toList)).head? ≠ some '/' := by
  cases hr : splitextRoot (pyBasename fp) with
  | nil => decide
  | cons c t =>
    have hc : c ∈ splitextRoot (pyBasename fp) := by
      rw [hr]; exact List.mem_cons_self c t
    have hslash := pyBasename_no_slash fp c (mem_splitextRoot hc)
    simp [hslash]

/-- Clip files go only into the scenes directory, so a converted video in
the temp directory is never overwritten by `split_video`. -/
lemma clipEntries_ne_temp (fp : List Char) (dur fuel : ℕ) (cap : VideoData)
    (b : List Char) (hb : b.head? ≠ some '/') :
    ∀ e ∈ clipEntries fp OUTPUT_DIR dur fuel cap,
      e.1 ≠ pyJoin TEMP_DIR b := by
  intro e he
  unfold clipEntries at he
  rcases List.mem_map.mp he with ⟨c, _, rfl⟩
  exact fun h => temp_path_ne_out_path b _ hb h.symm

/-- Splitting never erases an existing file. -/
lemma split_video_preserves_isSome (fs : FS) (p od : List Char)
    (dur fuel : ℕ) (q : List Char) (h : (fs q).isSome = true) :
    ((split_video fs p od dur fuel) q).isSome = true := by
  unfold split_video
  cases hc : fs p with
  | none => exact h
  | some cap =>
    cases ho : cap.openable with
    | false => simpa [ho] using h
    | true => simpa [ho] using writeAll_isSome fs (clipEntries p od dur fuel cap) q h

/-- Re-running `split_video` on an unchanged converted video rewrites the
same clip files with the same contents, leaving the filesystem unchanged. -/
lemma split_video_idem (fs : FS) (b : List Char) (hb : b.head? ≠ some '/')
    (dur fuel : ℕ) :
    split_video (split_video fs (pyJoin TEMP_DIR b) OUTPUT_DIR dur fuel)
        (pyJoin TEMP_DIR b) OUTPUT_DIR dur fuel
      = split_video fs (pyJoin TEMP_DIR b) OUTPUT_DIR dur fuel := by
  cases hc : fs (pyJoin TEMP_DIR b) with
  | none =>
    have h1 : split_video fs (pyJoin TEMP_DIR b) OUTPUT_DIR dur fuel = fs := by
      unfold split_video; rw [hc]
    rw [h1]
    exact h1
  | some cap =>
    cases ho : cap.openable with
    | true =>
      have h1 : split_video fs (pyJoin TEMP_DIR b) OUTPUT_DIR dur fuel
          = writeAll fs (clipEntries (pyJoin TEMP_DIR b) OUTPUT_DIR dur fuel cap) := by
        unfold split_video; rw [hc]; simp [ho]
      have hq : (writeAll fs
          (clipEntries (pyJoin TEMP_DIR b) OUTPUT_DIR dur fuel cap))
          (pyJoin TEMP_DIR b) = some cap := by
        rw [writeAll_ne _ _ _ (clipEntries_ne_temp _ dur fuel cap b hb)]
        exact hc
      rw [h1]
      unfold split_video
      rw [hq]
      simp only [ho, if_true]
      exact writeAll_idem fs _
    | false =>
      have h1 : split_video fs (pyJoin TEMP_DIR b) OUTPUT_DIR dur fuel = fs := by
        unfold split_video; rw [hc]; simp [ho]
      rw [h1]
      exact h1

/-- The idempotent-skip branch of `convert_to_mp4`: calling it again on its
own result is the identity. -/
lemma convert_to_mp4_idem (ffmpeg : List Char → Option VideoData) (fs : FS)
    (fp od : List Char) :
    convert_to_mp4 ffmpeg (convert_to_mp4 ffmpeg fs fp od).1 fp od
      = convert_to_mp4 ffmpeg fs fp od := by
  unfold convert_to_mp4
  by_cases h : (fs (convOutPath fp od)).isSome
  · simp [h]
  · cases hf : ffmpeg fp with
    | none => simp [h, hf]
    | some v => simp [h, hf, FS.update]

/-- Unfolding of one driver iteration when conversion yields a path. -/
lemma processVideo_convert_some (ffmpeg : List Char → Option VideoData)
    (fuel : ℕ) (fs fs1 : FS) (video_file p : List Char)
    (hcv : convert_to_mp4 ffmpeg fs (pyJoin INPUT_DIR video_file) TEMP_DIR
        = (fs1, some p)) :
    processVideo ffmpeg fuel fs video_file
      = split_video fs1 p OUTPUT_DIR CLIP_DURATION fuel := by
  unfold processVideo
  rw [hcv]

/-- Unfolding of one driver iteration when conversion fails. -/
lemma processVideo_convert_none (ffmpeg : List Char → Option VideoData)
    (fuel : ℕ) (fs fs1 : FS) (video_file : List Char)
    (hcv : convert_to_mp4 ffmpeg fs (pyJoin INPUT_DIR video_file) TEMP_DIR
        = (fs1, none)) :
    processVideo ffmpeg fuel fs video_file = fs1 := by
  unfold processVideo
  rw [hcv]

/-- C5: re-running normalization (`convert_to_mp4`) or segmentation
(`split_video`, inside the driver step) against unchanged inputs and the
outputs already on disk is a no-op.  The second `convert_to_mp4` call takes
the existing-output skip branch and returns the same result; the second
driver step leaves the filesystem exactly as after the first, because
`split_video` deterministically rewrites the same clip files with the same
contents.  The embedding has no exceptions: every branch returns a value. -/
theorem c5_rerun_noop (ffmpeg : List Char → Option VideoData) (fuel : ℕ)
    (fs : FS) (video_file : List Char) :
    convert_to_mp4 ffmpeg
        (convert_to_mp4 ffmpeg fs (pyJoin INPUT_DIR video_file) TEMP_DIR).1
        (pyJoin INPUT_DIR video_file) TEMP_DIR
      = convert_to_mp4 ffmpeg fs (pyJoin INPUT_DIR video_file) TEMP_DIR ∧
    processVideo ffmpeg fuel (processVideo ffmpeg fuel fs video_file)
        video_file
      = processVideo ffmpeg fuel fs video_file := by
  refine ⟨convert_to_mp4_idem ffmpeg fs _ TEMP_DIR, ?_⟩
  have hb : ((splitextRoot (pyBasename (pyJoin INPUT_DIR video_file)))
      ++ (".mp4".toList)).head? ≠ some '/' :=
    convName_head (pyJoin INPUT_DIR video_file)
  have hout : convOutPath (pyJoin INPUT_DIR video_file) TEMP_DIR
      = pyJoin TEMP_DIR ((splitextRoot (pyBasename (pyJoin INPUT_DIR
        video_file))) ++ (".mp4".toList)) := rfl
  by_cases h : (fs (convOutPath (pyJoin INPUT_DIR video_file) TEMP_DIR)).isSome
  · have hcv : convert_to_mp4 ffmpeg fs (pyJoin INPUT_DIR video_file) TEMP_DIR
        = (fs, some (convOutPath (pyJoin INPUT_DIR video_file) TEMP_DIR)) := by
      unfold convert_to_mp4; rw [if_pos h]
    rw [processVideo_convert_some ffmpeg fuel fs fs video_file _ hcv]
    have h2 : ((split_video fs (convOutPath (pyJoin INPUT_DIR video_file)
        TEMP_DIR) OUTPUT_DIR CLIP_DURATION fuel)
        (convOutPath (pyJoin INPUT_DIR video_file) TEMP_DIR)).isSome :=
      split_video_preserves_isSome fs _ _ _ _ _ h
    have hcv2 : convert_to_mp4 ffmpeg (split_video fs
        (convOutPath (pyJoin INPUT_DIR video_file) TEMP_DIR) OUTPUT_DIR
        CLIP_DURATION fuel) (pyJoin INPUT_DIR video_file) TEMP_DIR
        = (split_video fs (convOutPath (pyJoin INPUT_DIR video_file) TEMP_DIR)
            OUTPUT_DIR CLIP_DURATION fuel,
           some (convOutPath (pyJoin INPUT_DIR video_file) TEMP_DIR)) := by
      unfold convert_to_mp4; rw [if_pos h2]
    rw [processVideo_convert_some ffmpeg fuel _ _ video_file _ hcv2]
    rw [hout]
    exact split_video_idem fs _ hb CLIP_DURATION fuel
  · cases hf : ffmpeg (pyJoin INPUT_DIR video_file) with
    | none =>
      have hcv : convert_to_mp4 ffmpeg fs (pyJoin INPUT_DIR video_file)
          TEMP_DIR = (fs, none) := by
        unfold convert_to_mp4; rw [if_neg h, hf]
      have hPV := processVideo_convert_none ffmpeg fuel fs fs video_file hcv
      rw [hPV]
      exact hPV
    | some v =>
      have hcv : convert_to_mp4 ffmpeg fs (pyJoin INPUT_DIR video_file)
          TEMP_DIR
          = (FS.update fs (convOutPath (pyJoin INPUT_DIR video_file)
              TEMP_DIR) v,
             some (convOutPath (pyJoin INPUT_DIR video_file) TEMP_DIR)) := by
        unfold convert_to_mp4; rw [if_neg h, hf]
      rw [processVideo_convert_some ffmpeg fuel fs _ video_file _ hcv]
      have h2 : ((split_video (FS.update fs (convOutPath (pyJoin INPUT_DIR
          video_file) TEMP_DIR) v) (convOutPath (pyJoin INPUT_DIR video_file)
          TEMP_DIR) OUTPUT_DIR CLIP_DURATION fuel)
          (convOutPath (pyJoin INPUT_DIR video_file) TEMP_DIR)).isSome := by
        refine split_video_preserves_isSome _ _ _ _ _ _ ?_
        simp [FS.update]
      have hcv2 : convert_to_mp4 ffmpeg (split_video (FS.update fs
          (convOutPath (pyJoin INPUT_DIR video_file) TEMP_DIR) v)
          (convOutPath (pyJoin INPUT_DIR video_file) TEMP_DIR) OUTPUT_DIR
          CLIP_DURATION fuel) (pyJoin INPUT_DIR video_file) TEMP_DIR
          = (split_video (FS.update fs (convOutPath (pyJoin INPUT_DIR
              video_file) TEMP_DIR) v) (convOutPath (pyJoin INPUT_DIR
              video_file) TEMP_DIR) OUTPUT_DIR CLIP_DURATION fuel,
             some (convOutPath (pyJoin INPUT_DIR video_file) TEMP_DIR)) := by
        unfold convert_to_mp4; rw [if_pos h2]
      rw [processVideo_convert_some ffmpeg fuel _ _ video_file _ hcv2]
      rw [hout]
      exact split_video_idem _ _ hb CLIP_DURATION fuel

/-- C6 counterexample: the claim says two source videos with the same base
name and different extensions do not collide in output naming.  In the code
the extension is stripped, not swapped: `a.avi` and `a.mov` are both
normalized to the same output path `TEMP_DIR/a.mp4`. -/
theorem c6_counterexample :
    convOutPath ("video_data/raw_videos/a.avi".toList) TEMP_DIR
      = convOutPath ("video_data/raw_videos/a.mov".toList) TEMP_DIR := by
  decide

/-- C6 amended: the normalizer strips the source extension, so its output
path depends only on the splitext root of the basename; two sources with
the same base name and different extensions therefore collide on the same
normalized path (and hence on all downstream clip and embedding names
derived from it), the second call being skipped by the existence check. -/
theorem c6_extension_stripped (p q dir : List Char)
    (h : splitextRoot (pyBasename p) = splitextRoot (pyBasename q)) :
    convOutPath p dir = convOutPath q dir := by
  unfold convOutPath
  rw [h]

/-- Witness for `c6_extension_stripped` at the colliding pair
`a.avi` / `a.mov`. -/
theorem c6_extension_stripped_witness :
    splitextRoot (pyBasename ("video_data/raw_videos/a.avi".toList))
      = splitextRoot (pyBasename ("video_data/raw_videos/a.mov".toList)) ∧
    convOutPath ("video_data/raw_videos/a.avi".toList) TEMP_DIR
      = convOutPath ("video_data/raw_videos/a.mov".toList) TEMP_DIR :=
  ⟨by decide,
   c6_extension_stripped ("video_data/raw_videos/a.avi".toList)
     ("video_data/raw_videos/a.mov".toList) TEMP_DIR (by decide)⟩

/-- C8: when the FFmpeg subprocess fails for a video (and its output is not
already on disk), `convert_to_mp4` returns the explicit no-result signal
`none`, writes nothing, the video is excluded from segmentation, and the
driver processes the remaining videos exactly as if the failed one were
absent from the batch.  No retry exists: `convert_to_mp4` invokes the
subprocess at most once per call. -/
theorem c8_failed_conversion_isolated (ffmpeg : List Char → Option VideoData)
    (fuel : ℕ) (fs : FS) (pre post : List (List Char)) (bad : List Char)
    (hfail : ffmpeg (pyJoin INPUT_DIR bad) = none)
    (habsent : driverRun ffmpeg fuel pre fs
        (convOutPath (pyJoin INPUT_DIR bad) TEMP_DIR) = none) :
    convert_to_mp4 ffmpeg (driverRun ffmpeg fuel pre fs)
        (pyJoin INPUT_DIR bad) TEMP_DIR
      = (driverRun ffmpeg fuel pre fs, none) ∧
    driverRun ffmpeg fuel (pre ++ bad :: post) fs
      = driverRun ffmpeg fuel (pre ++ post) fs := by
  have hcv : convert_to_mp4 ffmpeg (driverRun ffmpeg fuel pre fs)
      (pyJoin INPUT_DIR bad) TEMP_DIR
      = (driverRun ffmpeg fuel pre fs, none) := by
    simp [convert_to_mp4, habsent, hfail]
  refine ⟨hcv, ?_⟩
  unfold driverRun
  rw [List.foldl_append, List.foldl_append, List.foldl_cons]
  have hPV := processVideo_convert_none ffmpeg fuel
    (List.foldl (processVideo ffmpeg fuel) fs pre)
    (List.foldl (processVideo ffmpeg fuel) fs pre) bad hcv
  rw [hPV]

/-- Witness for `c8_failed_conversion_isolated` on a one-element tail batch
with an always-failing FFmpeg oracle and an empty filesystem. -/
theorem c8_failed_conversion_isolated_witness :
    convert_to_mp4 (fun _ => none)
        (driverRun (fun _ => none) 0 [] (fun _ => none))
        (pyJoin INPUT_DIR ("a.avi".toList)) TEMP_DIR
      = (driverRun (fun _ => none) 0 [] (fun _ => none), none) ∧
    driverRun (fun _ => none) 0 ([] ++ ("a.avi".toList) :: [("b.mp4".toList)])
        (fun _ => none)
      = driverRun (fun _ => none) 0 ([] ++ [("b.mp4".toList)])
        (fun _ => none) :=
  c8_failed_conversion_isolated (fun _ => none) 0 (fun _ => none) []
    [("b.mp4".toList)] ("a.avi".toList) rfl rfl

/-- State of a `cv2.VideoCapture` on a clip file: whether it opened, the
indexed frames (a `none` entry is an undecodable frame), the reported
`CAP_PROP_FRAME_COUNT`, and the current read position
(`CAP_PROP_POS_FRAMES`). -/
structure Cap where
  opened : Bool
  frames : List (Option ℕ)
  reported : ℕ
  pos : ℕ
deriving DecidableEq

/-- Embedding of `cap.set(cv2.CAP_PROP_POS_FRAMES, i)`. -/
def Cap.setPos (c : Cap) (i : ℕ) : Cap := { c with pos := i }

/-- Embedding of `ret, frame = cap.read()`: decode the frame at the current
position (failing on an absent or undecodable frame) and advance. -/
def Cap.read (c : Cap) : Option ℕ × Cap :=
  match c.frames.get? c.pos with
  | some (some f) => (some f, { c with pos := c.pos + 1 })
  | _ => (none, c)

/-- Embedding of `extract_middle_frame` of the embedding notebook: if the
capture opened, read `total_frames`, seek to `total_frames // 2`, decode a
single frame, and return it, or `None` on any failure. -/
def extract_middle_frame (c : Cap) : Option ℕ :=
  if c.opened then
    let total_frames := c.reported
    let middle_frame_index := total_frames / 2
    ((c.setPos middle_frame_index).read).1
  else none

/-- Embedding of `generate_clip_embedding`; `embed` is the opaque
composition of the BGR→RGB conversion, the CLIP processor and the image
encoder, applied only when a frame was extracted. -/
def generate_clip_embedding (embed : ℕ → List ℚ) (c : Cap) :
    Option (List ℚ) :=
  match extract_middle_frame c with
  | none => none
  | some frame => some (embed frame)

/-- Worker for Python `str.replace(old, new)`: replace every non-overlapping
occurrence left to right; `skip` counts the characters of a just-matched
occurrence still to be consumed without emitting or re-matching. -/
def replaceAux (old new : List Char) : List Char → ℕ → List Char
  | [], _ => []
  | _ :: rest, skip + 1 => replaceAux old new rest skip
  | c :: rest, 0 =>
    if old.isPrefixOf (c :: rest) && !old.isEmpty then
      new ++ replaceAux old new rest (old.length - 1)
    else c :: replaceAux old new rest 0

/-- Python `s.replace(old, new)` (for the nonempty `old` the code uses). -/
def strReplace (old new s : List Char) : List Char := replaceAux old new s 0

/-- Configuration constant `EMBEDDING_DIR` of the embedding notebook. -/
def EMBEDDING_DIR : List Char := "embeddings".toList

/-- Artifact name chosen by the embedding loop:
`scene_file.replace('.mp4', '.npy')`. -/
def npyName (scene_file : List Char) : List Char :=
  strReplace (".mp4".toList) (".npy".toList) scene_file

/-- Embedding of the loop over `scene_files`: for each clip file (paired
with the capture state its path opens to), compute the embedding and save
it under `os.path.join(EMBEDDING_DIR, scene_file.replace('.mp4', '.npy'))`
only when the embedding is not `None`. -/
def embedStage (embed : ℕ → List ℚ) (scenes : List (List Char × Cap)) :
    List (List Char × List ℚ) :=
  scenes.filterMap fun sc =>
    (generate_clip_embedding embed sc.2).map
      fun e => (pyJoin EMBEDDING_DIR (npyName sc.1), e)

/-- C9: for a clip whose capture opens, `extract_middle_frame` requests and
decodes exactly the frame at index `total_frames // 2` of the reported
count, and the result does not depend on the capture's prior read position:
re-running on the same unmodified clip returns the same frame. -/
theorem c9_middle_frame_selection (cap : Cap) (h : cap.opened = true) :
    extract_middle_frame cap = (cap.frames.get? (cap.reported / 2)).bind id ∧
    ∀ i, extract_middle_frame (cap.setPos i) = extract_middle_frame cap := by
  constructor
  · unfold extract_middle_frame
    rw [if_pos h]
    simp only [List.get?_eq_getElem?]
    cases hf : cap.frames[cap.reported / 2]? with
    | none => simp [Cap.read, Cap.setPos, hf]
    | some of => cases of <;> simp [Cap.read, Cap.setPos, hf]
  · intro i
    unfold extract_middle_frame Cap.setPos Cap.read
    simp [h]

/-- Witness for `c9_middle_frame_selection` on a 3-frame clip. -/
theorem c9_middle_frame_selection_witness :
    extract_middle_frame (Cap.mk true [some 1, some 2, some 3] 3 0)
      = ((([some 1, some 2, some 3] : List (Option ℕ)).get? (3 / 2)).bind id) ∧
    extract_middle_frame ((Cap.mk true [some 1, some 2, some 3] 3 0).setPos 9)
      = extract_middle_frame (Cap.mk true [some 1, some 2, some 3] 3 0) :=
  ⟨(c9_middle_frame_selection (Cap.mk true [some 1, some 2, some 3] 3 0)
      rfl).1,
   (c9_middle_frame_selection (Cap.mk true [some 1, some 2, some 3] 3 0)
      rfl).2 9⟩

/-- Unfolding of the embedding loop when the head clip yields no
embedding. -/
lemma embedStage_cons_none (embed : ℕ → List ℚ) (s : List Char × Cap)
    (t : List (List Char × Cap))
    (hg : generate_clip_embedding embed s.2 = none) :
    embedStage embed (s :: t) = embedStage embed t := by
  unfold embedStage
  rw [List.filterMap_cons]
  simp only [hg, Option.map_none']

/-- Unfolding of the embedding loop when the head clip yields an
embedding. -/
lemma embedStage_cons_some (embed : ℕ → List ℚ) (s : List Char × Cap)
    (t : List (List Char × Cap)) (e : List ℚ)
    (hg : generate_clip_embedding embed s.2 = some e) :
    embedStage embed (s :: t)
      = (pyJoin EMBEDDING_DIR (npyName s.1), e) :: embedStage embed t := by
  unfold embedStage
  rw [List.filterMap_cons]
  simp only [hg, Option.map_some']

/-- Keys written by the embedding loop come from its scene files. -/
lemma embedStage_key_mem (embed : ℕ → List ℚ)
    (scenes : List (List Char × Cap)) (p : List Char) (v : List ℚ)
    (h : (p, v) ∈ embedStage embed scenes) :
    p ∈ scenes.map fun sc => pyJoin EMBEDDING_DIR (npyName sc.1) := by
  unfold embedStage at h
  rcases List.mem_filterMap.mp h with ⟨sc, hsc, hmap⟩
  rcases Option.map_eq_some'.mp hmap with ⟨e, _, hpair⟩
  cases hpair
  exact List.mem_map.mpr ⟨sc, hsc, rfl⟩

/-- C7: under distinct artifact paths, the embedding stage writes an
artifact for a clip if and only if that clip's middle keyframe was
readable; sibling clips are unaffected, the membership for each clip being
determined by that clip's own capture alone. -/
theorem c7_artifact_iff_keyframe_readable (embed : ℕ → List ℚ)
    (scenes : List (List Char × Cap)) (n : List Char) (c : Cap)
    (hmem : (n, c) ∈ scenes)
    (hnodup : (scenes.map fun sc => pyJoin EMBEDDING_DIR
        (npyName sc.1)).Nodup) :
    (∃ v, (pyJoin EMBEDDING_DIR (npyName n), v) ∈ embedStage embed scenes)
      ↔ (extract_middle_frame c).isSome = true := by
  induction scenes with
  | nil => cases hmem
  | cons s t ih =>
    rw [List.map_cons, List.nodup_cons] at hnodup
    rcases List.mem_cons.mp hmem with heq | ht
    · subst heq
      constructor
      · rintro ⟨v, hv⟩
        by_contra hnot
        have hext : extract_middle_frame c = none := by
          cases hx : extract_middle_frame c with
          | none => rfl
          | some f => rw [hx] at hnot; exact absurd rfl hnot
        have hgen : generate_clip_embedding embed c = none := by
          unfold generate_clip_embedding; rw [hext]
        rw [embedStage_cons_none embed (n, c) t hgen] at hv
        exact hnodup.1 (embedStage_key_mem embed t _ _ hv)
      · intro hsome
        rcases Option.isSome_iff_exists.mp hsome with ⟨f, hf⟩
        have hgen : generate_clip_embedding embed c = some (embed f) := by
          unfold generate_clip_embedding; rw [hf]
        refine ⟨embed f, ?_⟩
        rw [embedStage_cons_some embed (n, c) t (embed f) hgen]
        exact List.mem_cons_self _ _
    · have hkey_mem : pyJoin EMBEDDING_DIR (npyName n)
          ∈ t.map fun sc => pyJoin EMBEDDING_DIR (npyName sc.1) :=
        List.mem_map.mpr ⟨(n, c), ht, rfl⟩
      have hkey_ne : pyJoin EMBEDDING_DIR (npyName s.1)
          ≠ pyJoin EMBEDDING_DIR (npyName n) := by
        intro hkeq; exact hnodup.1 (hkeq ▸ hkey_mem)
      rw [← ih ht hnodup.2]
      cases hg : generate_clip_embedding embed s.2 with
      | none =>
        rw [embedStage_cons_none embed s t hg]
      | some e =>
        rw [embedStage_cons_some embed s t e hg]
        constructor
        · rintro ⟨v, hv⟩
          rcases List.mem_cons.mp hv with hhd | htl
          · exact absurd (congrArg Prod.fst hhd).symm hkey_ne
          · exact ⟨v, htl⟩
        · rintro ⟨v, hv⟩
          exact ⟨v, List.mem_cons_of_mem _ hv⟩

/-- Witness for `c7_artifact_iff_keyframe_readable`: one readable clip in a
two-clip batch whose sibling is unreadable. -/
theorem c7_artifact_iff_keyframe_readable_witness :
    (("a.mp4".toList, Cap.mk true [some 5] 1 0)
        ∈ [(("a.mp4".toList), Cap.mk true [some 5] 1 0),
           (("b.mp4".toList), Cap.mk false [] 0 0)]) ∧
    (([(("a.mp4".toList), Cap.mk true [some 5] 1 0),
       (("b.mp4".toList), Cap.mk false [] 0 0)].map
        fun sc => pyJoin EMBEDDING_DIR (npyName sc.1)).Nodup) ∧
    ((∃ v, (pyJoin EMBEDDING_DIR (npyName ("a.mp4".toList)), v)
        ∈ embedStage (fun f => [(f : ℚ)])
          [(("a.mp4".toList), Cap.mk true [some 5] 1 0),
           (("b.mp4".toList), Cap.mk false [] 0 0)])
      ↔ (extract_middle_frame (Cap.mk true [some 5] 1 0)).isSome = true) :=
  ⟨by decide, by decide,
   c7_artifact_iff_keyframe_readable (fun f => [(f : ℚ)])
     [(("a.mp4".toList), Cap.mk true [some 5] 1 0),
      (("b.mp4".toList), Cap.mk false [] 0 0)]
     ("a.mp4".toList) (Cap.mk true [some 5] 1 0) (by decide) (by decide)⟩

/-- Character expansion of the search pattern of the artifact renaming. -/
lemma mp4_chars : (".mp4".toList) = ['.', 'm', 'p', '4'] := rfl

/-- Substring test, used to state when the artifact renaming coincides with
a plain extension swap. -/
def containsSub (pat : List Char) : List Char → Bool
  | [] => pat.isEmpty
  | c :: rest => pat.isPrefixOf (c :: rest) || containsSub pat rest

/-- The pattern `.mp4` has no nontrivial border, so an occurrence that
begins inside `b` in `b ++ ".mp4"` cannot straddle into the appended
extension: a match at the head of `b ++ ".mp4"` forces a match at the head
of `b` itself. -/
lemma mp4_isPrefixOf_extend (c : Char) (rest : List Char)
    (h : (".mp4".toList).isPrefixOf (c :: (rest ++ (".mp4".toList))) = true) :
    (".mp4".toList).isPrefixOf (c :: rest) = true := by
  rcases rest with _ | ⟨d, _ | ⟨e, _ | ⟨f, r⟩⟩⟩
  · simp [mp4_chars, List.isPrefixOf] at h
  · simp [mp4_chars, List.isPrefixOf] at h
  · simp [mp4_chars, List.isPrefixOf] at h
  · simp only [mp4_chars, List.isPrefixOf] at h ⊢
    simpa using h

/-- C10 counterexample: the claim says the artifact name replaces only the
first occurrence of `.mp4`, so a clip whose base name itself holds `.mp4`
would keep its trailing `.mp4`.  Python's `str.replace` replaces every
occurrence: `a.mp4_clip_000.mp4` becomes `a.npy_clip_000.npy`, not
`a.npy_clip_000.mp4`. -/
theorem c10_counterexample :
    npyName ("a.mp4_clip_000.mp4".toList) = ("a.npy_clip_000.npy".toList) ∧
    npyName ("a.mp4_clip_000.mp4".toList) ≠ ("a.npy_clip_000.mp4".toList) := by
  decide

/-- C10 amended: the artifact name replaces every non-overlapping
occurrence of `.mp4` with `.npy` (Python `str.replace`); this coincides
with swapping the trailing extension exactly when `.mp4` does not occur
earlier in the clip name, and a name with interior occurrences is rewritten
at every occurrence, the trailing one included. -/
theorem c10_replace_all_occurrences (b : List Char)
    (h : containsSub (".mp4".toList) b = false) :
    npyName (b ++ (".mp4".toList)) = b ++ (".npy".toList) := by
  induction b with
  | nil => decide
  | cons c rest ih =>
    rw [containsSub] at h
    rcases Bool.or_eq_false_iff.mp h with ⟨hp, h2⟩
    have hp2 : (".mp4".toList).isPrefixOf
        (c :: (rest ++ (".mp4".toList))) = false := by
      cases hx : (".mp4".toList).isPrefixOf (c :: (rest ++ (".mp4".toList)))
      · rfl
      · have hc2 := mp4_isPrefixOf_extend c rest hx
        rw [hp] at hc2
        exact (Bool.false_ne_true hc2).elim
    unfold npyName strReplace
    rw [List.cons_append, replaceAux, hp2]
    simp only [Bool.false_and, Bool.false_eq_true, if_false]
    exact congrArg (List.cons c) (ih h2)

/-- Witness for `c10_replace_all_occurrences` on a clip base name free of
interior `.mp4` occurrences. -/
theorem c10_replace_all_occurrences_witness :
    containsSub (".mp4".toList) ("a_clip_000".toList) = false ∧
    npyName (("a_clip_000".toList) ++ (".mp4".toList))
      = ("a_clip_000".toList) ++ (".npy".toList) :=
  ⟨by decide, c10_replace_all_occurrences ("a_clip_000".toList) (by decide)⟩
